import Mathlib

/-!
# Verification of the skill-catalog loader (`scripts/load-skill.py`)

A shallow embedding of the core logic of the loader script:

* `parse_frontmatter` — the `---`-delimited key/value header parser;
* `get_all_skills` — the catalog scanner over a modelled root directory;
* `search_skills` — keyword search over the catalog;
* `find_skill_path` — the tiered name resolver (exact / suffix / fuzzy).

Files are modelled as lists of lines (Python iterates a file line by line);
a file read may fail (`FileData.unreadable`), in which case the Python
code raises, modelled with `Except Unit`.  Paths are modelled as strings
relative to the repository root (`"<dir>/SKILL.md"`).
-/

/-- Python's `str.strip()`: drop leading and trailing whitespace. -/
def pyStrip (s : String) : String :=
  String.mk (((s.toList.dropWhile Char.isWhitespace).reverse.dropWhile Char.isWhitespace).reverse)

/-- Python's `str.lower()` (ASCII case folding, as used by the script). -/
def pyLower (s : String) : String :=
  String.mk (s.toList.map Char.toLower)

/-- Test that `needle` occurs as a contiguous sublist of `hay`. -/
def isSubstring (needle : List Char) : List Char → Bool
  | [] => needle.isEmpty
  | c :: rest => needle.isPrefixOf (c :: rest) || isSubstring needle rest

/-- Python's `needle in s` substring test. -/
def pyContains (hay needle : String) : Bool :=
  isSubstring needle.toList hay.toList

/-- Python's `s.endswith(suf)`. -/
def pyEndsWith (s suf : String) : Bool :=
  suf.toList.isSuffixOf s.toList

/-- The case-insensitive containment test `needle.lower() in hay.lower()`
used by fuzzy matching and search. -/
def containsCI (hay needle : String) : Bool :=
  pyContains (pyLower hay) (pyLower needle)

/-- Python's `s.split(':', 1)[0]`: the part before the first colon. -/
def beforeColon (s : String) : String :=
  String.mk (s.toList.takeWhile (fun c => c ≠ ':'))

/-- Python's `s.split(':', 1)[1]`: the part after the first colon. -/
def afterColon (s : String) : String :=
  String.mk ((s.toList.dropWhile (fun c => c ≠ ':')).drop 1)

/-- The metadata dictionary: an insertion-ordered string map, as Python's
`dict` used by `parse_frontmatter`. -/
abbrev Dict := List (String × String)

/-- Python's `metadata[key] = value`: overwrite an existing binding in place, else
append, exactly the update semantics of a Python `dict`. -/
def dictInsert (k v : String) : Dict → Dict
  | [] => [(k, v)]
  | (k', v') :: rest => if k' = k then (k, v) :: rest else (k', v') :: dictInsert k v rest

/-- Python's `metadata.get(key)`: the value bound to `k`, if any. -/
def dictGet (k : String) (d : Dict) : Option String :=
  (d.find? (fun p => p.1 = k)).map (fun p => p.2)

/-- Python's `metadata.get(key, default)`. -/
def dictGetD (k : String) (d : Dict) (dflt : String) : String :=
  (dictGet k d).getD dflt

/-- The loop body of `parse_frontmatter`: each line is stripped; a stripped
`---` toggles into the header or, when already inside, breaks; inside the
header a line containing a colon is split at its first colon and both
halves are stripped and recorded. -/
def parseLines : List String → Bool → Dict → Dict
  | [], _, md => md
  | l :: ls, inFm, md =>
    let s := pyStrip l
    if s = "---" then
      if inFm then md
      else parseLines ls true md
    else if inFm ∧ pyContains s ":" then
      parseLines ls inFm (dictInsert (pyStrip (beforeColon s)) (pyStrip (afterColon s)) md)
    else parseLines ls inFm md

/-- The function `parse_frontmatter`: extract the YAML-ish frontmatter mapping from a
document given as its list of lines. -/
def parse_frontmatter (doc : List String) : Dict :=
  parseLines doc false []

/-- The content of one file: a read either fails (the Python `open`/decode
raises) or yields the file's lines. -/
inductive FileData where
  | unreadable
  | content (lines : List String)
deriving DecidableEq, Repr

/-- One immediate child of the repository root: its name, whether it is a
directory, and the `SKILL.md` directly inside it, when present. -/
structure Item where
  name : String
  isDir : Bool
  skillFile : Option FileData
deriving DecidableEq, Repr

/-- The repository root: its immediate children, in iteration order. -/
abbrev Root := List Item

/-- One catalog entry, as built by `get_all_skills`. -/
structure Entry where
  directory : String
  path : String
  name : String
  description : String
  version : String
  activation : String
deriving DecidableEq, Repr

/-- Build the entry dictionary for a skill directory from its parsed
frontmatter, with the defaulting rules of `get_all_skills`. -/
def mkEntry (dirName : String) (md : Dict) : Entry :=
  { directory := dirName
    path := dirName ++ "/SKILL.md"
    name := dictGetD "name" md dirName
    description := dictGetD "description" md "No description"
    version := dictGetD "version" md "1.0"
    activation := dictGetD "activation" md "" }

/-- Python string `<`: lexicographic comparison by code point. -/
def charsLt : List Char → List Char → Bool
  | [], [] => false
  | [], _ :: _ => true
  | _ :: _, [] => false
  | a :: as, b :: bs => if a < b then true else if b < a then false else charsLt as bs

/-- `a < b` on strings, as Python compares sort keys. -/
def strLt (a b : String) : Bool :=
  charsLt a.toList b.toList

/-- Stable insertion of an entry into a name-sorted list: the new entry
goes before the first strictly greater name, after equal ones it follows
in input order, matching the stability of Python's `sorted`. -/
def insertByName (e : Entry) : List Entry → List Entry
  | [] => [e]
  | x :: xs => if strLt x.name e.name then x :: insertByName e xs else e :: x :: xs

/-- Python's `sorted(skills, key=lambda x: x['name'])`: a stable sort ascending by
display name. -/
def sortByName : List Entry → List Entry
  | [] => []
  | e :: es => insertByName e (sortByName es)

/-- Reading a file's lines; an unreadable file raises. -/
def readLines : FileData → Except Unit (List String)
  | .unreadable => .error ()
  | .content ls => .ok ls

/-- The scan loop of `get_all_skills`: keep directory children whose name
ends in `-skill` and that contain a `SKILL.md`; parse each frontmatter and
build the entry.  A failing read propagates (the Python code has no
handler around `parse_frontmatter`). -/
def scanItems : Root → Except Unit (List Entry)
  | [] => .ok []
  | it :: rest =>
    if it.isDir ∧ pyEndsWith it.name "-skill" then
      match it.skillFile with
      | none => scanItems rest
      | some fd => do
        let ls ← readLines fd
        let es ← scanItems rest
        .ok (mkEntry it.name (parse_frontmatter ls) :: es)
    else scanItems rest

/-- The function `get_all_skills`: scan the root and return the entries sorted by
display name. -/
def get_all_skills (root : Root) : Except Unit (List Entry) :=
  (scanItems root).map sortByName

/-- The match predicate of `search_skills`: the keyword occurs
case-insensitively in the name, the description or the activation hint. -/
def entryMatches (keyword : String) (sk : Entry) : Bool :=
  containsCI sk.name keyword || containsCI sk.description keyword
    || containsCI sk.activation keyword

/-- The function `search_skills`: the catalog entries matching a keyword, in catalog
order. -/
def search_skills (root : Root) (keyword : String) : Except Unit (List Entry) :=
  (get_all_skills root).map (fun sks => sks.filter (entryMatches keyword))

/-- Python's `skill_dir.exists() and (skill_dir / "SKILL.md").exists()`: the root
has a child of the given name that contains a `SKILL.md`. -/
def dirHasSkill (root : Root) (name : String) : Bool :=
  match root.find? (fun it => it.name = name) with
  | some it => it.skillFile.isSome
  | none => false

/-- The fuzzy tier of `find_skill_path`: the first catalog entry, in
sorted order, whose display name contains the input case-insensitively. -/
def fuzzyMatch (root : Root) (skill_name : String) : Except Unit (Option String) := do
  let skills ← get_all_skills root
  .ok ((skills.find? (fun sk => containsCI sk.name skill_name)).map (fun sk => sk.path))

/-- The function `find_skill_path`: exact directory match, then the `-skill`-suffixed
retry (only when the input does not already end in `-skill`), then fuzzy
matching over the catalog. -/
def find_skill_path (root : Root) (skill_name : String) : Except Unit (Option String) :=
  if dirHasSkill root skill_name then
    .ok (some (skill_name ++ "/SKILL.md"))
  else if ¬pyEndsWith skill_name "-skill" ∧ dirHasSkill root (skill_name ++ "-skill") then
    .ok (some (skill_name ++ "-skill/SKILL.md"))
  else
    fuzzyMatch root skill_name

/-- How the observed line of a header is recorded: the stripped line, when
it contains a colon, yields the stripped key/value split at the first
colon. -/
def lineKV (l : String) : Option (String × String) :=
  let s := pyStrip l
  if pyContains s ":" then some (pyStrip (beforeColon s), pyStrip (afterColon s)) else none

/-- The value of the last header line binding the key `k`, if any. -/
def lastValue (k : String) : List String → Option String
  | [] => none
  | l :: ls =>
    match lastValue k ls with
    | some v => some v
    | none =>
      match lineKV l with
      | some kv => if kv.1 = k then some kv.2 else none
      | none => none

/-- The ordering relation of the catalog: entry `a` may precede entry `b`
when `b`'s display name is not strictly smaller. -/
def nameLe (a b : Entry) : Prop := strLt b.name a.name = false

/-- A concrete root whose three skills are named `Zeta`, `alpha` and
`Beta` in their frontmatter. -/
def zRoot : Root :=
  [⟨"z-skill", true, some (.content ["---", "name: Zeta", "---"])⟩,
   ⟨"a-skill", true, some (.content ["---", "name: alpha", "---"])⟩,
   ⟨"b-skill", true, some (.content ["---", "name: Beta", "---"])⟩]

/-- A concrete root with two entries whose display names both contain
the query `tool`. -/
def twoToolRoot : Root :=
  [⟨"mega-skill", true, some (.content ["---", "name: Mega Tool", "---"])⟩,
   ⟨"great-skill", true, some (.content ["---", "name: Great Tool", "---"])⟩]

/-- A root that contains both a directory literally named `foo` and the
directory `foo-skill`, each with a `SKILL.md`. -/
def fooCollisionRoot : Root :=
  [⟨"foo", true, some (.content [])⟩,
   ⟨"foo-skill", true, some (.content [])⟩]

/-- A root mixing one unreadable and one readable skill file. -/
def mixedRoot : Root :=
  [⟨"a-skill", true, some .unreadable⟩,
   ⟨"b-skill", true, some (.content ["---", "name: B", "---"])⟩]

/-- A root whose sole skill mentions `magic` only in its activation
field. -/
def actRoot : Root :=
  [⟨"helper-skill", true,
    some (.content ["---", "name: Helper", "description: assists generally",
      "activation: say the magic word", "---"])⟩]

-- quick sanity checks of the parser on concrete documents
example : parse_frontmatter ["---", "name: A", "---", "body"] = [("name", "A")] := by decide
example : parse_frontmatter ["hello", "---", "key: value", "---"] = [("key", "value")] := rfl
example : parse_frontmatter ["  ---  ", "key: value", "  ---  "] = [("key", "value")] := rfl
example : parse_frontmatter ["no delims", "a: b"] = [] := rfl
example : parse_frontmatter ["---", "a: 1", "a: 2", "---"] = [("a", "2")] := rfl
example : parse_frontmatter ["---", "d: Handles URLs: http://x", "---"]
    = [("d", "Handles URLs: http://x")] := rfl

-- sanity checks of scanner and resolver on a concrete root
example :
    get_all_skills
      [⟨"z-skill", true, some (.content ["---", "name: Zeta", "---"])⟩,
       ⟨"README.md", false, none⟩,
       ⟨"a-skill", true, some (.content ["---", "name: alpha", "---"])⟩,
       ⟨"b-skill", true, some (.content ["---", "name: Beta", "---"])⟩]
      = .ok
        [⟨"b-skill", "b-skill/SKILL.md", "Beta", "No description", "1.0", ""⟩,
         ⟨"z-skill", "z-skill/SKILL.md", "Zeta", "No description", "1.0", ""⟩,
         ⟨"a-skill", "a-skill/SKILL.md", "alpha", "No description", "1.0", ""⟩] := rfl

example :
    find_skill_path [⟨"foo-skill", true, some (.content [])⟩] "foo"
      = .ok (some "foo-skill/SKILL.md") := rfl

example :
    find_skill_path [⟨"foo-skill", true, some (.content [])⟩] "foo-skill"
      = .ok (some "foo-skill/SKILL.md") := rfl

example :
    find_skill_path
      [⟨"gt-skill", true, some (.content ["---", "name: Great Tool", "---"])⟩] "great"
      = .ok (some "gt-skill/SKILL.md") := rfl

example :
    get_all_skills
      [⟨"a-skill", true, some .unreadable⟩,
       ⟨"b-skill", true, some (.content ["---", "name: B", "---"])⟩]
      = .error () := rfl

/-! ## Lemmas about the header parser -/

/-- Outside the header, every line that does not strip to the delimiter is
skipped without touching the state. -/
lemma parseLines_skip (pre : List String) (h : ∀ l ∈ pre, pyStrip l ≠ "---")
    (rest : List String) (md : Dict) :
    parseLines (pre ++ rest) false md = parseLines rest false md := by
  induction pre with
  | nil => rfl
  | cons l ls ih =>
    have hl : pyStrip l ≠ "---" := h l (by simp)
    simp only [List.cons_append, parseLines, hl, if_false, false_and, if_neg, ite_false]
    exact ih (fun x hx => h x (by simp [hx]))

/-- The delimiter token strips to itself. -/
lemma pyStrip_token : pyStrip "---" = "---" := rfl

/-- Lookup after a dictionary update: the updated key reads back the new
value, other keys are unchanged. -/
lemma dictGet_dictInsert (k k' v : String) (d : Dict) :
    dictGet k (dictInsert k' v d) = if k' = k then some v else dictGet k d := by
  induction d with
  | nil => by_cases h : k' = k <;> simp [dictInsert, dictGet, List.find?, h]
  | cons p rest ih =>
    obtain ⟨pk, pv⟩ := p
    by_cases hp : pk = k'
    · subst hp
      by_cases h : pk = k <;> simp [dictInsert, dictGet, List.find?, h]
    · by_cases hk : pk = k
      · subst hk
        have h2 : ¬pk = k' := hp
        have h3 : ¬k' = pk := fun e => hp e.symm
        simp [dictInsert, dictGet, List.find?, h2, h3]
      · simp [dictInsert, dictGet, List.find?, hp, hk] at ih ⊢
        exact ih

/-- One parsing step inside the header on a non-delimiter line: a colon
line records its split, any other line is skipped. -/
lemma parseLines_cons_true (l : String) (ls : List String) (md : Dict)
    (hl : pyStrip l ≠ "---") :
    parseLines (l :: ls) true md
      = parseLines ls true
          (if pyContains (pyStrip l) ":" then
            dictInsert (pyStrip (beforeColon (pyStrip l))) (pyStrip (afterColon (pyStrip l))) md
          else md) := by
  by_cases hc : pyContains (pyStrip l) ":" <;> simp [parseLines, hl, hc]

/-- Inside the header, the lookup of `k` after consuming the body up to
the closing delimiter is the last binding of `k` in the body, else
whatever the accumulated dictionary held. -/
lemma parseLines_header (body : List String) (h : ∀ l ∈ body, pyStrip l ≠ "---")
    (rest : List String) (k : String) :
    ∀ md : Dict,
      dictGet k (parseLines (body ++ "---" :: rest) true md)
        = ((lastValue k body).orElse (fun _ => dictGet k md)) := by
  induction body with
  | nil =>
    intro md
    simp [parseLines, pyStrip_token, lastValue, Option.orElse]
  | cons l ls ih =>
    intro md
    have hl : pyStrip l ≠ "---" := h l (by simp)
    have hls : ∀ x ∈ ls, pyStrip x ≠ "---" := fun x hx => h x (by simp [hx])
    rw [List.cons_append, parseLines_cons_true l _ _ hl, ih hls]
    by_cases hc : pyContains (pyStrip l) ":"
    · rw [if_pos hc]
      cases hv : lastValue k ls with
      | some v => simp [lastValue, hv, Option.orElse]
      | none =>
        simp only [lastValue, hv, lineKV, hc, if_true, ite_true, Option.orElse,
          dictGet_dictInsert]
        by_cases hk : pyStrip (beforeColon (pyStrip l)) = k <;> simp [hk]
    · rw [if_neg hc]
      cases hv : lastValue k ls with
      | some v => simp [lastValue, hv, Option.orElse]
      | none => simp [lastValue, hv, lineKV, hc, Option.orElse]

/-! ## Claim theorems: header parsing -/

/-- Claim C6: for a document whose header sits between two delimiter
lines, each key is bound to the value of its last occurrence in the
header (later occurrences overwrite earlier ones). -/
theorem frontmatter_last_occurrence_wins (body rest : List String) (k v : String)
    (hbody : ∀ l ∈ body, pyStrip l ≠ "---")
    (hlast : lastValue k body = some v) :
    dictGet k (parse_frontmatter ("---" :: (body ++ "---" :: rest))) = some v := by
  unfold parse_frontmatter
  have h0 : parseLines ("---" :: (body ++ "---" :: rest)) false []
      = parseLines (body ++ "---" :: rest) true [] := by
    simp [parseLines, pyStrip_token]
  rw [h0, parseLines_header body hbody rest k [], hlast]
  rfl

/-- Witness for C6: a concrete header with a duplicated key binds the
key to its last value. -/
theorem frontmatter_last_occurrence_wins_witness :
    dictGet "a" (parse_frontmatter ("---" :: (["a: 1", "b: x", "a: 2"] ++ "---" :: ["body"])))
      = some "2" :=
  frontmatter_last_occurrence_wins ["a: 1", "b: x", "a: 2"] ["body"] "a" "2"
    (by decide) (by decide)

/-- Counterexample to claim C2: a document whose first line is not the
delimiter does not parse to the empty mapping when a delimiter appears
later — header collection starts at that later delimiter. -/
theorem first_line_not_delim_counterexample :
    parse_frontmatter ["hello", "---", "key: value", "---"] ≠ []
      ∧ parse_frontmatter ["hello", "---", "key: value", "---"] = [("key", "value")] :=
  ⟨by decide, rfl⟩

/-- Claim C2 (amended): every line before the first delimiter line is
ignored, and parsing proceeds as if the document began at the first
delimiter; consequently a document with no delimiter line at all parses
to the empty mapping. -/
theorem header_starts_at_first_delimiter (pre post : List String)
    (h : ∀ l ∈ pre, pyStrip l ≠ "---") :
    parse_frontmatter (pre ++ post) = parse_frontmatter post :=
  parseLines_skip pre h post []

/-- Witness for the amended C2: skipping a non-delimiter first line. -/
theorem header_starts_at_first_delimiter_witness :
    parse_frontmatter (["hello"] ++ ["---", "a: b", "---"])
      = parse_frontmatter ["---", "a: b", "---"] :=
  header_starts_at_first_delimiter ["hello"] ["---", "a: b", "---"] (by decide)

/-- Counterexample to claim C7: a line consisting of `---` surrounded by
extra whitespace IS treated as a delimiter (the code strips each line
before comparing), so header fields are collected. -/
theorem padded_delimiter_counterexample :
    parse_frontmatter ["  ---  ", "key: value", "  ---  "] = [("key", "value")]
      ∧ ("  ---  " : String) ≠ "---" :=
  ⟨rfl, by decide⟩

/-- Claim C7 (amended): a line is recognized as a header delimiter iff
its whitespace-stripped form is exactly the three-character token `---`;
in a two-line document the key line is collected exactly when the first
line strips to the token. -/
theorem delimiter_iff_strips_to_token (l : String) :
    parse_frontmatter [l, "key: v"]
      = if pyStrip l = "---" then [("key", "v")] else [] := by
  by_cases h : pyStrip l = "---" <;>
    simp only [parse_frontmatter, parseLines, h, if_true, if_false, ite_true, ite_false,
      false_and, if_neg, reduceIte] <;> rfl

/-! ## Lemmas about sorting and the scanner -/

/-- Code-point lexicographic comparison is asymmetric. -/
lemma charsLt_asymm : ∀ a b : List Char, charsLt a b = true → charsLt b a = false
  | [], [] => by simp [charsLt]
  | [], _ :: _ => by simp [charsLt]
  | _ :: _, [] => by simp [charsLt]
  | a :: as, b :: bs => by
    intro h
    simp only [charsLt] at h ⊢
    by_cases hab : a < b
    · have hba : ¬b < a := fun hc => absurd (lt_trans hab hc) (lt_irrefl a)
      simp [hab, hba]
    · by_cases hba : b < a
      · simp [hab, hba] at h
      · simp only [hab, hba, if_false, ite_false] at h ⊢
        exact charsLt_asymm as bs h

/-- String comparison is asymmetric. -/
lemma strLt_asymm (a b : String) (h : strLt a b = true) : strLt b a = false :=
  charsLt_asymm _ _ h

/-- The head of an insertion is the inserted entry or the old head. -/
lemma insertByName_head (e : Entry) (l : List Entry) :
    (insertByName e l).head? = some e ∨ (insertByName e l).head? = l.head? := by
  cases l with
  | nil => left; rfl
  | cons x xs =>
    by_cases hx : strLt x.name e.name
    · right; simp [insertByName, hx]
    · left; simp [insertByName, hx]

/-- Insertion preserves the sortedness of the catalog. -/
lemma insertByName_chain (e : Entry) (l : List Entry) (h : List.Chain' nameLe l) :
    List.Chain' nameLe (insertByName e l) := by
  induction l with
  | nil => simp [insertByName]
  | cons x xs ih =>
    rw [insertByName]
    by_cases hx : strLt x.name e.name
    · rw [if_pos hx]
      rw [List.chain'_cons']
      refine ⟨?_, ih (List.Chain'.tail h)⟩
      intro y hy
      rcases insertByName_head e xs with hh | hh
      · rw [hh, Option.mem_def, Option.some.injEq] at hy
        subst hy
        exact strLt_asymm _ _ hx
      · rw [hh] at hy
        exact (List.chain'_cons'.mp h).1 y hy
    · rw [if_neg hx]
      rw [List.chain'_cons']
      refine ⟨?_, h⟩
      intro y hy
      rw [List.head?_cons, Option.mem_def, Option.some.injEq] at hy
      subst hy
      exact Bool.eq_false_iff.mpr hx

/-- The sort used by the scanner produces a name-sorted list. -/
lemma sortByName_chain (l : List Entry) : List.Chain' nameLe (sortByName l) := by
  induction l with
  | nil => simp [sortByName]
  | cons e es ih => exact insertByName_chain e _ ih

/-- Claim C5: every successful scan is sorted ascending by display name
under the default case-sensitive string comparison; in particular the
names `Zeta`, `alpha`, `Beta` come out as `Beta`, `Zeta`, `alpha`
(capitals sort before lowercase). -/
theorem catalog_sorted_by_name :
    (∀ (root : Root) (es : List Entry), get_all_skills root = .ok es → List.Chain' nameLe es)
      ∧ (get_all_skills zRoot).map (fun es => es.map Entry.name)
          = .ok ["Beta", "Zeta", "alpha"] := by
  constructor
  · intro root es h
    unfold get_all_skills at h
    cases hs : scanItems root with
    | error err => rw [hs] at h; cases h
    | ok l =>
      rw [hs] at h
      simp only [Except.map, Except.ok.injEq] at h
      rw [← h]
      exact sortByName_chain l
  · rfl

/-- Witness for C5: the sortedness property applied to the concrete
`Zeta`/`alpha`/`Beta` root. -/
theorem catalog_sorted_by_name_witness :
    List.Chain' nameLe
      [⟨"b-skill", "b-skill/SKILL.md", "Beta", "No description", "1.0", ""⟩,
       ⟨"z-skill", "z-skill/SKILL.md", "Zeta", "No description", "1.0", ""⟩,
       ⟨"a-skill", "a-skill/SKILL.md", "alpha", "No description", "1.0", ""⟩] :=
  catalog_sorted_by_name.1 zRoot _ rfl

/-! ## Lemmas and claims about the resolver -/

/-- Finding in a split list: when nothing on the left matches and the
middle element does, the search returns the middle element. -/
lemma find?_append_middle {α : Type} (p : α → Bool) (l1 l2 : List α) (e : α)
    (h1 : ∀ x ∈ l1, p x = false) (he : p e = true) :
    (l1 ++ e :: l2).find? p = some e := by
  induction l1 with
  | nil => simp [List.find?, he]
  | cons x xs ih =>
    have hx := h1 x (by simp)
    simp only [List.cons_append, List.find?, hx]
    exact ih (fun y hy => h1 y (by simp [hy]))

/-- Claim C3: when neither the exact nor the suffix-qualified directory
lookup matches, the resolver returns the path of the first entry in the
scan's sorted order whose display name contains the input
case-insensitively; entries earlier in the order win. -/
theorem fuzzy_first_in_sorted_order (root : Root) (input : String)
    (es1 es2 : List Entry) (e : Entry)
    (hx : dirHasSkill root input = false)
    (hs : pyEndsWith input "-skill" = true ∨ dirHasSkill root (input ++ "-skill") = false)
    (hscan : get_all_skills root = .ok (es1 ++ e :: es2))
    (hbefore : ∀ x ∈ es1, containsCI x.name input = false)
    (he : containsCI e.name input = true) :
    find_skill_path root input = .ok (some e.path) := by
  unfold find_skill_path
  rw [if_neg (by simp [hx])]
  rw [if_neg (by rcases hs with hs | hs <;> simp [hs])]
  unfold fuzzyMatch
  rw [hscan]
  simp only [Except.bind, bind, Except.ok.injEq]
  rw [find?_append_middle _ es1 es2 e hbefore he]
  rfl

/-- Witness for C3: with two fuzzy matches, the entry earlier in sorted
order (`Great Tool`) is returned. -/
theorem fuzzy_first_in_sorted_order_witness :
    find_skill_path twoToolRoot "tool" = .ok (some "great-skill/SKILL.md") :=
  fuzzy_first_in_sorted_order twoToolRoot "tool" []
    [⟨"mega-skill", "mega-skill/SKILL.md", "Mega Tool", "No description", "1.0", ""⟩]
    ⟨"great-skill", "great-skill/SKILL.md", "Great Tool", "No description", "1.0", ""⟩
    (by decide) (Or.inr (by decide)) rfl (by simp) (by decide)

/-- The empty character sequence occurs in every sequence. -/
lemma isSubstring_nil (l : List Char) : isSubstring [] l = true := by
  cases l <;> simp [isSubstring, List.isPrefixOf, List.isEmpty]

/-- The empty string is a case-insensitive substring of every string. -/
lemma containsCI_empty (s : String) : containsCI s "" = true :=
  isSubstring_nil _

/-- Claim C9: on a non-empty catalog, resolving the empty input (when
neither the empty name nor `-skill` matches a directory) returns the
first entry of the sorted catalog, because the empty string is a
substring of every display name. -/
theorem empty_input_resolves_to_first_entry (root : Root) (e : Entry) (es : List Entry)
    (h0 : dirHasSkill root "" = false)
    (h1 : dirHasSkill root "-skill" = false)
    (hscan : get_all_skills root = .ok (e :: es)) :
    find_skill_path root "" = .ok (some e.path) := by
  unfold find_skill_path
  rw [if_neg (by simp [h0])]
  have happ : ("" ++ "-skill" : String) = "-skill" := rfl
  rw [if_neg (by rw [happ]; simp [h1])]
  unfold fuzzyMatch
  rw [hscan]
  simp only [Except.bind, bind, Except.ok.injEq]
  rw [show (e :: es).find? (fun sk => containsCI sk.name "") = some e by
    simp [List.find?, containsCI_empty]]
  rfl

/-- Counterexample to claim C4: when the root also contains a directory
literally named `foo` with a `SKILL.md`, resolving `foo` returns that
directory's document, not `foo-skill`'s. -/
theorem foo_shadowed_counterexample :
    find_skill_path fooCollisionRoot "foo" = .ok (some "foo/SKILL.md")
      ∧ find_skill_path fooCollisionRoot "foo" ≠ .ok (some "foo-skill/SKILL.md") := by
  refine ⟨rfl, ?_⟩
  intro h
  have h2 : (Except.ok (some "foo/SKILL.md") : Except Unit (Option String))
      = .ok (some "foo-skill/SKILL.md") :=
    (show find_skill_path fooCollisionRoot "foo" = .ok (some "foo/SKILL.md") from rfl).symm.trans h
  injection h2 with h3
  injection h3 with h4
  exact absurd h4 (by decide)

/-- Claim C4 (amended): provided the root has no directory literally
named `foo` containing a `SKILL.md` (which the exact tier would prefer),
resolving both `foo-skill` and `foo` returns `foo-skill/SKILL.md`; and
for any input that already ends in `-skill`, the suffix-qualified retry
is skipped, going straight to fuzzy matching. -/
theorem suffix_qualified_resolution (root : Root) (other : String)
    (h1 : dirHasSkill root "foo-skill" = true)
    (h2 : dirHasSkill root "foo" = false)
    (h3 : pyEndsWith other "-skill" = true)
    (h4 : dirHasSkill root other = false) :
    find_skill_path root "foo-skill" = .ok (some "foo-skill/SKILL.md")
      ∧ find_skill_path root "foo" = .ok (some "foo-skill/SKILL.md")
      ∧ find_skill_path root other = fuzzyMatch root other := by
  have happ : ("foo" ++ "-skill" : String) = "foo-skill" := rfl
  refine ⟨?_, ?_, ?_⟩
  · unfold find_skill_path
    rw [if_pos (by simp [h1])]
    rfl
  · unfold find_skill_path
    rw [if_neg (by simp [h2])]
    rw [if_pos ⟨by decide, by rw [happ]; simp [h1]⟩]
    rfl
  · unfold find_skill_path
    rw [if_neg (by simp [h4])]
    rw [if_neg (by simp [h3])]

/-- Witness for the amended C4 on a one-directory root. -/
theorem suffix_qualified_resolution_witness :
    find_skill_path [⟨"foo-skill", true, some (.content [])⟩] "foo-skill"
        = .ok (some "foo-skill/SKILL.md")
      ∧ find_skill_path [⟨"foo-skill", true, some (.content [])⟩] "foo"
        = .ok (some "foo-skill/SKILL.md")
      ∧ find_skill_path [⟨"foo-skill", true, some (.content [])⟩] "bar-skill"
        = fuzzyMatch [⟨"foo-skill", true, some (.content [])⟩] "bar-skill" :=
  suffix_qualified_resolution [⟨"foo-skill", true, some (.content [])⟩] "bar-skill"
    (by decide) (by decide) (by decide) (by decide)

/-- Witness for C9: the empty input resolves to the sole catalog entry. -/
theorem empty_input_resolves_to_first_entry_witness :
    find_skill_path [⟨"gt-skill", true, some (.content ["---", "name: Great Tool", "---"])⟩] ""
      = .ok (some "gt-skill/SKILL.md") :=
  empty_input_resolves_to_first_entry
    [⟨"gt-skill", true, some (.content ["---", "name: Great Tool", "---"])⟩]
    ⟨"gt-skill", "gt-skill/SKILL.md", "Great Tool", "No description", "1.0", ""⟩ []
    (by decide) (by decide) rfl

/-- Every entry produced by the scan loop comes from a `-skill` directory
and its path is that directory name followed by `/SKILL.md`. -/
lemma scanItems_shape (root : Root) (es : List Entry) (h : scanItems root = .ok es) :
    ∀ e ∈ es, pyEndsWith e.directory "-skill" = true ∧ e.path = e.directory ++ "/SKILL.md" := by
  induction root generalizing es with
  | nil =>
    simp only [scanItems, Except.ok.injEq] at h
    subst h
    simp
  | cons it rest ih =>
    by_cases hc : (it.isDir = true ∧ pyEndsWith it.name "-skill" = true)
    · rw [scanItems, if_pos hc] at h
      cases hsf : it.skillFile with
      | none => rw [hsf] at h; exact ih es h
      | some fd =>
        rw [hsf] at h
        cases fd with
        | unreadable => simp [readLines, Except.bind, bind] at h
        | content ls =>
          simp only [readLines, Except.bind, bind] at h
          cases hr : scanItems rest with
          | error err => rw [hr] at h; cases h
          | ok tail =>
            rw [hr] at h
            simp only [Except.ok.injEq] at h
            subst h
            intro e he
            rcases List.mem_cons.mp he with rfl | he'
            · exact ⟨hc.2, rfl⟩
            · exact ih tail hr e he'
    · rw [scanItems, if_neg hc] at h
      exact ih es h

/-- Membership after insertion: the inserted entry, or an old one. -/
lemma mem_insertByName (x e : Entry) (l : List Entry) :
    x ∈ insertByName e l ↔ x = e ∨ x ∈ l := by
  induction l with
  | nil => simp [insertByName]
  | cons y ys ih =>
    by_cases hy : strLt y.name e.name <;> simp [insertByName, hy, ih]
    tauto

/-- Sorting permutes and hence preserves membership. -/
lemma mem_sortByName (x : Entry) (l : List Entry) : x ∈ sortByName l ↔ x ∈ l := by
  induction l with
  | nil => simp [sortByName]
  | cons e es ih => simp [sortByName, mem_insertByName, ih]

/-- Appending the same string on the right is injective. -/
lemma string_append_cancel (a b c : String) (h : a ++ c = b ++ c) : a = b := by
  have hd : a.data ++ c.data = b.data ++ c.data := by
    have h2 := congrArg String.data h
    rwa [String.data_append, String.data_append] at h2
  exact String.ext (List.append_cancel_right hd)

/-- Claim C10: the exact tier succeeds for any root child containing a
`SKILL.md`, regardless of the `-skill` suffix; when the name lacks the
suffix, the returned document can never appear in a catalog scan. -/
theorem exact_match_outside_catalog (root : Root) (name : String)
    (h : dirHasSkill root name = true) :
    find_skill_path root name = .ok (some (name ++ "/SKILL.md"))
      ∧ (pyEndsWith name "-skill" = false →
          ∀ es, get_all_skills root = .ok es → ∀ e ∈ es, e.path ≠ name ++ "/SKILL.md") := by
  constructor
  · unfold find_skill_path
    rw [if_pos (by simp [h])]
  · intro hsuf es hes e he hpath
    unfold get_all_skills at hes
    cases hs : scanItems root with
    | error err => rw [hs] at hes; cases hes
    | ok l =>
      rw [hs] at hes
      simp only [Except.map, Except.ok.injEq] at hes
      rw [← hes, mem_sortByName] at he
      obtain ⟨hdir, hp⟩ := scanItems_shape root l hs e he
      rw [hp] at hpath
      rw [string_append_cancel _ _ _ hpath] at hdir
      rw [hdir] at hsuf
      cases hsuf

/-- Witness for C10: a directory named `docs` (no `-skill` suffix) with a
`SKILL.md` resolves exactly, yet no scan of that root lists its path. -/
theorem exact_match_outside_catalog_witness :
    find_skill_path [⟨"docs", true, some (.content [])⟩] "docs"
        = .ok (some ("docs" ++ "/SKILL.md"))
      ∧ (pyEndsWith "docs" "-skill" = false →
          ∀ es, get_all_skills [⟨"docs", true, some (.content [])⟩] = .ok es →
            ∀ e ∈ es, e.path ≠ "docs" ++ "/SKILL.md") :=
  exact_match_outside_catalog [⟨"docs", true, some (.content [])⟩] "docs" (by decide)

/-! ## Claims about scan-level error handling -/

/-- Counterexample to claim C1: an unreadable `SKILL.md` aborts the
whole scan instead of being excluded, and a malformed (non-frontmatter)
`SKILL.md` is included with defaulted metadata instead of being
excluded. -/
theorem scan_aborts_counterexample :
    get_all_skills mixedRoot = .error ()
      ∧ get_all_skills [⟨"bad-skill", true, some (.content ["%% not frontmatter %%"])⟩]
          = .ok [⟨"bad-skill", "bad-skill/SKILL.md", "bad-skill", "No description", "1.0", ""⟩] :=
  ⟨rfl, rfl⟩

/-- The scan loop succeeds exactly when no qualifying directory has an
unreadable `SKILL.md`. -/
lemma scanItems_ok_iff (root : Root) :
    (∃ es, scanItems root = .ok es) ↔
      (∀ it ∈ root, it.isDir = true → pyEndsWith it.name "-skill" = true →
        it.skillFile ≠ some FileData.unreadable) := by
  induction root with
  | nil => simp [scanItems]
  | cons it rest ih =>
    by_cases hc : (it.isDir = true ∧ pyEndsWith it.name "-skill" = true)
    · cases hsf : it.skillFile with
      | none =>
        rw [scanItems, if_pos hc, hsf]
        constructor
        · intro h x hx h1 h2
          rcases List.mem_cons.mp hx with rfl | hx'
          · rw [hsf]; simp
          · exact ih.mp h x hx' h1 h2
        · intro h
          exact ih.mpr (fun x hx => h x (List.mem_cons_of_mem _ hx))
      | some fd =>
        cases fd with
        | unreadable =>
          rw [scanItems, if_pos hc, hsf]
          constructor
          · rintro ⟨es, hes⟩
            simp [readLines, Except.bind, bind] at hes
          · intro h
            exact absurd hsf (h it (List.mem_cons_self it rest) hc.1 hc.2)
        | content ls =>
          rw [scanItems, if_pos hc, hsf]
          constructor
          · rintro ⟨es, hes⟩ x hx h1 h2
            rcases List.mem_cons.mp hx with rfl | hx'
            · rw [hsf]; simp
            · refine ih.mp ?_ x hx' h1 h2
              simp only [readLines, Except.bind, bind] at hes
              cases hr : scanItems rest with
              | error err => rw [hr] at hes; cases hes
              | ok tail => exact ⟨tail, rfl⟩
          · intro h
            obtain ⟨es', hes'⟩ := ih.mpr (fun x hx => h x (List.mem_cons_of_mem _ hx))
            exact ⟨mkEntry it.name (parse_frontmatter ls) :: es',
              by simp [readLines, Except.bind, bind, hes']⟩
    · rw [scanItems, if_neg hc]
      constructor
      · intro hl x hx h1 h2
        rcases List.mem_cons.mp hx with rfl | hx'
        · exact absurd ⟨h1, h2⟩ hc
        · exact ih.mp hl x hx' h1 h2
      · intro h
        exact ih.mpr (fun x hx => h x (List.mem_cons_of_mem _ hx))

/-- Claim C1 (amended): scanning succeeds — with malformed files included
under defaulted metadata rather than excluded — if and only if no
qualifying `-skill` directory has an unreadable `SKILL.md`; a single
unreadable file aborts the entire scan. -/
theorem scan_ok_iff_no_unreadable (root : Root) :
    (∃ es, get_all_skills root = .ok es) ↔
      (∀ it ∈ root, it.isDir = true → pyEndsWith it.name "-skill" = true →
        it.skillFile ≠ some FileData.unreadable) := by
  rw [← scanItems_ok_iff]
  unfold get_all_skills
  constructor
  · rintro ⟨es, hes⟩
    cases hs : scanItems root with
    | error err => rw [hs] at hes; cases hes
    | ok l => exact ⟨l, rfl⟩
  · rintro ⟨l, hl⟩
    exact ⟨sortByName l, by rw [hl]; rfl⟩

/-- Witness for the amended C1: a fully readable root scans successfully. -/
theorem scan_ok_iff_no_unreadable_witness :
    ∃ es, get_all_skills [⟨"ok-skill", true, some (.content ["---", "name: OK", "---"])⟩]
      = .ok es :=
  (scan_ok_iff_no_unreadable
    [⟨"ok-skill", true, some (.content ["---", "name: OK", "---"])⟩]).mpr (by decide)

/-! ## Claim about search -/

/-- Claim C8: search returns exactly the catalog entries whose display
name, description or activation hint contains the keyword
case-insensitively, as a sublist (hence in catalog sorted order) of the
scanned catalog. -/
theorem search_filters_catalog (root : Root) (kw : String) (es : List Entry)
    (h : get_all_skills root = .ok es) :
    ∃ ms, search_skills root kw = .ok ms ∧ ms.Sublist es ∧
      ∀ e ∈ es, (e ∈ ms ↔
        (containsCI e.name kw = true ∨ containsCI e.description kw = true
          ∨ containsCI e.activation kw = true)) := by
  refine ⟨es.filter (entryMatches kw), ?_, es.filter_sublist, ?_⟩
  · unfold search_skills
    rw [h]
    rfl
  · intro e he
    rw [List.mem_filter]
    simp [entryMatches, he, Bool.or_eq_true, or_assoc]

/-- Witness for C8: a keyword found only in the activation field still
returns the entry. -/
theorem search_filters_catalog_witness :
    (∃ ms, search_skills actRoot "magic" = .ok ms ∧
      ms.Sublist [⟨"helper-skill", "helper-skill/SKILL.md", "Helper", "assists generally",
        "1.0", "say the magic word"⟩] ∧
      ∀ e ∈ [(⟨"helper-skill", "helper-skill/SKILL.md", "Helper", "assists generally",
        "1.0", "say the magic word"⟩ : Entry)], (e ∈ ms ↔
        (containsCI e.name "magic" = true ∨ containsCI e.description "magic" = true
          ∨ containsCI e.activation "magic" = true)))
      ∧ search_skills actRoot "magic"
          = .ok [⟨"helper-skill", "helper-skill/SKILL.md", "Helper", "assists generally",
              "1.0", "say the magic word"⟩] :=
  ⟨search_filters_catalog actRoot "magic" _ rfl, rfl⟩

